import Mathlib

set_option linter.unusedVariables false

/-!
Verification of the Hive metastore specification against the repository's
source (`src/metastore/src/gen-cpp/ThriftHiveMetastore_server.skeleton.cpp`).

The file under `src/` is the generated Thrift server skeleton: every handler
body is a stub (a `printf` of the operation name, touching neither its
`_return` argument nor any state).  The behavioural components the spec
describes — the Identifier Codec, the Namespace Catalog, the Type Registry —
are repository code not present under `src/`; they are modelled here from the
spec's words, each such definition marked `Modelled from the spec:`.
Strings are embedded as `List Char`.
-/

namespace HiveMeta

/-- A string of the modelled catalog, embedded as a list of characters. -/
abbrev Str := List Char

/-- The error taxonomy of spec §7. -/
inductive Err where
  | NotFound
  | AlreadyExists
  | NotEmpty
  | InvalidSchema
  | InvalidOperation
  | UnknownReference
  | CyclicDependency
  | StillReferenced
  | Protected
  | MalformedIdentifier
  | Unavailable
  deriving DecidableEq, Repr

/-! ## Identifier Codec (spec §4.1)

Modelled from the spec: the Identifier Codec is repository code not under
`src/` (the skeleton only declares the partition operations that consume it).
Spec §3: a partition name is "a deterministic string encoding of (key=value)
pairs joined by a separator, URL-escaped per component"; §4.1: decoding
validates arity against the caller-supplied key names and fails with
`MalformedIdentifier` otherwise. -/

/-- URL-escape one character: the separator `/`, the key/value delimiter `=`
and the escape character `%` are percent-encoded, every other character is
kept as is. -/
def escapeChar (c : Char) : List Char :=
  if c = '%' then ['%', '2', '5']
  else if c = '/' then ['%', '2', 'F']
  else if c = '=' then ['%', '3', 'D']
  else [c]

/-- URL-escape a component: escape each character. -/
def escape (s : Str) : Str := s.flatMap escapeChar

/-- Invert `escape`; `none` when the escaped structure is invalid. -/
def unescape : Str → Option Str
  | [] => some []
  | c :: rest =>
    if c = '%' then
      match rest with
      | a :: b :: r =>
        if a = '2' ∧ b = '5' then (unescape r).map (fun t => '%' :: t)
        else if a = '2' ∧ b = 'F' then (unescape r).map (fun t => '/' :: t)
        else if a = '3' ∧ b = 'D' then (unescape r).map (fun t => '=' :: t)
        else none
      | _ => none
    else (unescape rest).map (fun t => c :: t)

/-- Join components with a separator character. -/
def joinSep (sep : Char) : List Str → Str
  | [] => []
  | [p] => p
  | p :: ps => p ++ sep :: joinSep sep ps

/-- Split a string at every occurrence of the separator character
(inverse of `joinSep` on separator-free components). -/
def splitSep (sep : Char) : Str → List Str
  | [] => [[]]
  | c :: rest =>
    let r := splitSep sep rest
    if c = sep then [] :: r
    else (c :: r.headI) :: r.tail

/-- Split a component at the first occurrence of the delimiter character. -/
def splitFirst (sep : Char) : Str → Option (Str × Str)
  | [] => none
  | c :: rest =>
    if c = sep then some ([], rest)
    else (splitFirst sep rest).map (fun p => (c :: p.1, p.2))

/-- `encode keys values` — the canonical partition name: `key=value`
components, each side escaped, joined by `/`. -/
def encode (keys values : List Str) : Str :=
  joinSep '/' (List.zipWith (fun k v => escape k ++ '=' :: escape v) keys values)

/-- Decode the `key=value` components against the expected partition-key
names, positionally; `none` on arity mismatch, malformed component, invalid
escape or key-name mismatch. -/
def decodeComps : List Str → List Str → Option (List Str)
  | [], [] => some []
  | k :: ks, comp :: comps =>
    (splitFirst '=' comp).bind (fun p =>
      (unescape p.1).bind (fun dk =>
        (unescape p.2).bind (fun dv =>
          if dk = k then (decodeComps ks comps).map (fun vs => dv :: vs)
          else none)))
  | _, _ => none

/-- `decode keys name` — split the name into components, split each component
at its first `=`, unescape both sides, check the key names and the arity
against the table's partition-key names; `none` models the
`MalformedIdentifier` failure. -/
def decode (keys : List Str) (name : Str) : Option (List Str) :=
  decodeComps keys (splitSep '/' name)

theorem escapeChar_ne_nil (c : Char) : escapeChar c ≠ [] := by
  unfold escapeChar
  split_ifs <;> simp

theorem not_mem_escapeChar {c d : Char} (hd : d = '/' ∨ d = '=') :
    d ∉ escapeChar c := by
  unfold escapeChar
  rcases hd with rfl | rfl <;> split_ifs with h1 h2 h3 <;>
    simp_all <;> rintro rfl <;> simp_all

theorem not_mem_escape {s : Str} {d : Char} (hd : d = '/' ∨ d = '=') :
    d ∉ escape s := by
  intro hmem
  rcases List.mem_flatMap.mp hmem with ⟨c, _, hc⟩
  exact not_mem_escapeChar hd hc

theorem unescape_cons_ne {c : Char} (h : ¬c = '%') (rest : Str) :
    unescape (c :: rest) = (unescape rest).map (fun t => c :: t) := by
  rw [unescape.eq_def]
  simp only []
  rw [if_neg h]

theorem unescape_escapeChar (c : Char) (rest : Str) :
    unescape (escapeChar c ++ rest) = (unescape rest).map (fun t => c :: t) := by
  unfold escapeChar
  split_ifs with h1 h2 h3
  · subst h1; rfl
  · subst h2; rfl
  · subst h3; rfl
  · exact unescape_cons_ne h1 rest

theorem unescape_escape (s : Str) : unescape (escape s) = some s := by
  induction s with
  | nil => rfl
  | cons c cs ih =>
    show unescape (escapeChar c ++ escape cs) = _
    rw [unescape_escapeChar, ih]
    rfl

theorem splitSep_cons (sep c : Char) (rest : Str) :
    splitSep sep (c :: rest) =
      if c = sep then [] :: splitSep sep rest
      else (c :: (splitSep sep rest).headI) :: (splitSep sep rest).tail := rfl

theorem splitSep_no_sep {sep : Char} {p : Str} (h : sep ∉ p) :
    splitSep sep p = [p] := by
  induction p with
  | nil => rfl
  | cons c cs ih =>
    simp only [List.mem_cons, not_or] at h
    rw [splitSep_cons, if_neg (fun hc => h.1 hc.symm), ih h.2]
    rfl

theorem splitSep_append {sep : Char} {p r : Str} (h : sep ∉ p) :
    splitSep sep (p ++ sep :: r) = p :: splitSep sep r := by
  induction p with
  | nil => rw [List.nil_append, splitSep_cons, if_pos rfl]
  | cons c cs ih =>
    simp only [List.mem_cons, not_or] at h
    rw [List.cons_append, splitSep_cons, if_neg (fun hc => h.1 hc.symm), ih h.2]
    rfl

theorem splitSep_joinSep {sep : Char} {ps : List Str} (hne : ps ≠ [])
    (h : ∀ p ∈ ps, sep ∉ p) : splitSep sep (joinSep sep ps) = ps := by
  induction ps with
  | nil => exact absurd rfl hne
  | cons p ps ih =>
    cases ps with
    | nil => exact splitSep_no_sep (h p (List.mem_cons_self p []))
    | cons q qs =>
      show splitSep sep (p ++ sep :: joinSep sep (q :: qs)) = _
      rw [splitSep_append (h p (by simp)), ih (by simp)]
      intro x hx
      exact h x (List.mem_cons_of_mem p hx)

theorem splitFirst_cons (sep c : Char) (rest : Str) :
    splitFirst sep (c :: rest) =
      if c = sep then some ([], rest)
      else (splitFirst sep rest).map (fun p => (c :: p.1, p.2)) := rfl

theorem splitFirst_append {sep : Char} {k v : Str} (h : sep ∉ k) :
    splitFirst sep (k ++ sep :: v) = some (k, v) := by
  induction k with
  | nil => simp [splitFirst_cons]
  | cons c cs ih =>
    simp only [List.mem_cons, not_or] at h
    rw [List.cons_append, splitFirst_cons, if_neg (fun hc => h.1 hc.symm), ih h.2]
    rfl

theorem decodeComps_encode {keys values : List Str}
    (hlen : keys.length = values.length) :
    decodeComps keys (List.zipWith (fun k v => escape k ++ '=' :: escape v) keys values) =
      some values := by
  induction keys generalizing values with
  | nil =>
    cases values with
    | nil => rfl
    | cons v vs => exact absurd hlen (by simp)
  | cons k ks ih =>
    cases values with
    | nil => exact absurd hlen (by simp)
    | cons v vs =>
      rw [List.zipWith_cons_cons]
      show (splitFirst '=' (escape k ++ '=' :: escape v)).bind _ = _
      rw [splitFirst_append (not_mem_escape (Or.inr rfl)), Option.some_bind]
      simp only [unescape_escape, Option.some_bind, if_pos rfl]
      rw [ih (by simpa using hlen)]
      rfl

/-- **C1** — The Identifier Codec round-trips: for every table with
partition-key names `keys` (at least one key: only partitioned tables carry
partition names) and every value list `values` of matching arity,
`decode keys (encode keys values) = some values`. -/
theorem codec_roundtrip (keys values : List Str)
    (hlen : keys.length = values.length) (hpos : 0 < keys.length) :
    decode keys (encode keys values) = some values := by
  unfold decode encode
  have hne : List.zipWith (fun k v => escape k ++ '=' :: escape v) keys values ≠ [] := by
    intro hcontra
    have hlz := congrArg List.length hcontra
    rw [List.length_zipWith, hlen, min_self, List.length_nil] at hlz
    rw [hlen] at hpos
    omega
  rw [splitSep_joinSep hne ?nosep]
  case nosep =>
    intro p hp hmem
    rcases List.mem_iff_getElem.mp hp with ⟨i, hi, heq⟩
    rw [List.getElem_zipWith] at heq
    subst heq
    rcases List.mem_append.mp hmem with h | h
    · exact not_mem_escape (Or.inl rfl) h
    · rcases List.mem_cons.mp h with h | h
      · exact absurd h (by decide)
      · exact not_mem_escape (Or.inl rfl) h
  exact decodeComps_encode hlen

/-- Witness for **C1** at keys `["ds", "hr"]` and values containing the
reserved characters `/`, `=` and `%`. -/
theorem codec_roundtrip_witness :
    decode [['d', 's'], ['h', 'r']]
        (encode [['d', 's'], ['h', 'r']] [['a', '/', 'b'], ['=', '%']]) =
      some [['a', '/', 'b'], ['=', '%']] :=
  codec_roundtrip [['d', 's'], ['h', 'r']] [['a', '/', 'b'], ['=', '%']]
    (by decide) (by decide)

/-! ## Namespace Catalog (spec §3, §4.4)

Modelled from the spec: the Namespace Catalog is repository code not under
`src/` (the skeleton only declares its operations).  The catalog state is the
database directory, the table directory keyed by (database, table) and the
stored partition set; the partition's canonical name is computed via the
Codec at insertion (spec §9: one canonical storage key, the name derived). -/

/-- A stored partition (thrift `Partition`): owning database and table,
ordered value list, canonical name, storage location, properties. -/
structure Partition where
  dbName : Str
  tableName : Str
  values : List Str
  name : Str := []
  location : Str := []
  parameters : List (Str × Str) := []
  deriving DecidableEq, Repr

/-- Table metadata the partition operations consume: the ordered
partition-key column names and the base location. -/
structure TableInfo where
  partitionKeys : List Str
  location : Str := []
  deriving DecidableEq, Repr

/-- The catalog state: databases (name, description), tables keyed by
(database name, table name), and the stored partition set. -/
structure CatalogState where
  dbs : List (Str × Str)
  tbls : List ((Str × Str) × TableInfo)
  parts : List Partition
  deriving DecidableEq, Repr

/-- Does a database with this name exist? -/
def dbExists (s : CatalogState) (name : Str) : Bool :=
  s.dbs.any (fun d => decide (d.1 = name))

/-- Look up a table by (database, table) name. -/
def lookupTable (s : CatalogState) (db t : Str) : Option TableInfo :=
  (s.tbls.find? (fun e => decide (e.1 = (db, t)))).map (fun e => e.2)

/-- The stored partitions of one table. -/
def partsOf (s : CatalogState) (db t : Str) : List Partition :=
  s.parts.filter (fun p => decide (p.dbName = db ∧ p.tableName = t))

/-- The table names a database currently owns. -/
def tableNames (s : CatalogState) (db : Str) : List Str :=
  s.tbls.filterMap (fun e => if e.1.1 = db then some e.1.2 else none)

/-- Modelled from the spec: `getPartition(db, table, values) -> Partition`,
`NotFound` when the table or the partition is absent (§4.4). -/
def getPartition (s : CatalogState) (db t : Str) (vals : List Str) :
    Except Err Partition :=
  match lookupTable s db t with
  | none => .error .NotFound
  | some _ =>
    match (partsOf s db t).find? (fun p => decide (p.values = vals)) with
    | some p => .ok p
    | none => .error .NotFound

/-- Modelled from the spec: `getPartitionByName(db, table, partitionName)`
decodes the name via the Codec against the table's partition-key names, then
resolves the same underlying value-list key (§4.4, §9). -/
def getPartitionByName (s : CatalogState) (db t : Str) (name : Str) :
    Except Err Partition :=
  match lookupTable s db t with
  | none => .error .NotFound
  | some tb =>
    match decode tb.partitionKeys name with
    | none => .error .MalformedIdentifier
    | some vals => getPartition s db t vals

/-- Modelled from the spec: `addPartition(Partition) -> Partition` —
`NotFound` if the owning table is absent, `InvalidSchema` on value-list arity
mismatch, `AlreadyExists` if the value-list is already present; otherwise
stores the partition with its canonical name computed via the Codec (§4.4). -/
def addPartition (s : CatalogState) (p : Partition) :
    Except Err (Partition × CatalogState) :=
  match lookupTable s p.dbName p.tableName with
  | none => .error .NotFound
  | some tb =>
    if p.values.length ≠ tb.partitionKeys.length then .error .InvalidSchema
    else if (partsOf s p.dbName p.tableName).any (fun q => decide (q.values = p.values)) then
      .error .AlreadyExists
    else
      let stored := { p with name := encode tb.partitionKeys p.values }
      .ok (stored, { s with parts := stored :: s.parts })

/-- Cap a listing at `maxParts` entries; a negative limit means unbounded
(spec §4.4: signed limit, negative sentinel for "no limit"). -/
def limitParts {α : Type} (maxParts : Int) (l : List α) : List α :=
  if maxParts < 0 then l else l.take maxParts.toNat

/-- Modelled from the spec: `getPartitions(db, table, maxParts)` (§4.4). -/
def getPartitions (s : CatalogState) (db t : Str) (maxParts : Int) :
    Except Err (List Partition) :=
  match lookupTable s db t with
  | none => .error .NotFound
  | some _ => .ok (limitParts maxParts (partsOf s db t))

/-- Modelled from the spec: `getPartitionNames(db, table, maxParts)` (§4.4). -/
def getPartitionNames (s : CatalogState) (db t : Str) (maxParts : Int) :
    Except Err (List Str) :=
  match lookupTable s db t with
  | none => .error .NotFound
  | some _ => .ok (limitParts maxParts ((partsOf s db t).map (fun p => p.name)))

/-- Modelled from the spec: `dropTable(db, name, deleteData)` drops the table
and all owned partitions transitively; `deleteData` is a pass-through signal
to the external storage collaborator (§4.4). -/
def dropTable (s : CatalogState) (db t : Str) (deleteData : Bool) :
    Except Err CatalogState :=
  match lookupTable s db t with
  | none => .error .NotFound
  | some _ =>
    .ok { s with
      tbls := s.tbls.filter (fun e => decide (¬e.1 = (db, t))),
      parts := s.parts.filter (fun p => decide (¬(p.dbName = db ∧ p.tableName = t))) }

/-- Modelled from the spec: `dropDatabase(name) -> bool` — `NotFound` when
absent, `NotEmpty` while the database still owns a table (§4.4, unforced). -/
def dropDatabase (s : CatalogState) (name : Str) :
    Except Err (Bool × CatalogState) :=
  if dbExists s name then
    if tableNames s name = [] then
      .ok (true, { s with dbs := s.dbs.filter (fun d => decide (¬d.1 = name)) })
    else .error .NotEmpty
  else .error .NotFound

/-- Drop the listed tables of one database in sequence, stopping at the
first failure. -/
def dropTables (db : Str) : CatalogState → List Str → Except Err CatalogState
  | s, [] => .ok s
  | s, t :: ts =>
    match dropTable s db t false with
    | .error e => .error e
    | .ok s2 => dropTables db s2 ts

/-- Serialized execution of `n` identical `addPartition` calls (spec §5:
partition-set mutations are linearizable and each call is atomic, so any
concurrent execution is equivalent to some serialization).  Returns (number
of successes, number of `AlreadyExists` failures, final state). -/
def addCount (p : Partition) : CatalogState → Nat → Nat × Nat × CatalogState
  | s, 0 => (0, 0, s)
  | s, n + 1 =>
    match addPartition s p with
    | .ok (_, s2) =>
      let r := addCount p s2 n
      (r.1 + 1, r.2.1, r.2.2)
    | .error .AlreadyExists =>
      let r := addCount p s n
      (r.1, r.2.1 + 1, r.2.2)
    | .error _ =>
      let r := addCount p s n
      (r.1, r.2.1, r.2.2)

/-! ## Type Registry (spec §4.2)

Modelled from the spec: the Type Registry is repository code not under
`src/`.  A type holds its name and the names of the types it references;
`createType` checks, in order, `AlreadyExists`, `UnknownReference` (a
reference is known when it names a registered type or the type being
created itself), and `CyclicDependency` via reachability in the reference
graph extended with the new type. -/

/-- A named type definition with the names of the types it references. -/
structure HType where
  name : Str
  refs : List Str
  deriving DecidableEq, Repr

/-- Is a type of this name registered? -/
def typeDefined (R : List HType) (n : Str) : Bool :=
  R.any (fun t => decide (t.name = n))

/-- The references of a registered type (empty for an unknown name). -/
def refsOf (R : List HType) (n : Str) : List Str :=
  match R.find? (fun t => decide (t.name = n)) with
  | some t => t.refs
  | none => []

/-- Fuel-bounded reachability of `goal` from the frontier in the reference
graph of registry `R`. -/
def reach (R : List HType) (goal : Str) : Nat → List Str → Bool
  | 0, _ => false
  | fuel + 1, frontier =>
    frontier.any (fun r => decide (r = goal) || reach R goal fuel (refsOf R r))

/-- Modelled from the spec: `createType(Type)` — `AlreadyExists` if the name
is taken, `UnknownReference` if it references an undefined type,
`CyclicDependency` if adding it would create a cycle in the type reference
graph (§4.2). -/
def createType (R : List HType) (t : HType) : Except Err (List HType) :=
  if typeDefined R t.name then .error .AlreadyExists
  else if t.refs.all (fun r => decide (r = t.name) || typeDefined R r) then
    if reach R t.name (R.length + 1) t.refs then .error .CyclicDependency
    else .ok (t :: R)
  else .error .UnknownReference

/-- The registry after a `createType` call: updated on success, unchanged on
failure. -/
def afterCreate (R : List HType) (t : HType) : List HType :=
  match createType R t with
  | .ok R2 => R2
  | .error _ => R

theorem lookupTable_parts_update (s : CatalogState) (db t : Str) (l : List Partition) :
    lookupTable { s with parts := l } db t = lookupTable s db t := rfl

theorem partsOf_parts_cons (s : CatalogState) (db t : Str) (q : Partition)
    (hdb : q.dbName = db) (ht : q.tableName = t) :
    partsOf { s with parts := q :: s.parts } db t = q :: partsOf s db t := by
  unfold partsOf
  rw [List.filter_cons, if_pos (by simp [hdb, ht])]

theorem addPartition_ok (s : CatalogState) (tb : TableInfo) (p : Partition)
    (htb : lookupTable s p.dbName p.tableName = some tb)
    (harity : p.values.length = tb.partitionKeys.length)
    (habs : (partsOf s p.dbName p.tableName).any
      (fun q => decide (q.values = p.values)) = false) :
    addPartition s p =
      .ok ({ p with name := encode tb.partitionKeys p.values },
           { s with parts := { p with name := encode tb.partitionKeys p.values } :: s.parts }) := by
  unfold addPartition
  rw [htb]
  simp only []
  rw [if_neg (by simp [harity]), habs]
  simp

theorem addPartition_already (s : CatalogState) (tb : TableInfo) (p : Partition)
    (htb : lookupTable s p.dbName p.tableName = some tb)
    (harity : p.values.length = tb.partitionKeys.length)
    (hpresent : (partsOf s p.dbName p.tableName).any
      (fun q => decide (q.values = p.values)) = true) :
    addPartition s p = .error .AlreadyExists := by
  unfold addPartition
  rw [htb]
  simp only []
  rw [if_neg (by simp [harity]), hpresent]
  simp

/-- **C2** — For every stored partition of a table, the two addressing modes
agree: looking the partition up by its value list and looking it up by its
encoded canonical name return identical results, and the lookup succeeds. -/
theorem get_partition_addressing_agree (s : CatalogState) (db t : Str)
    (tb : TableInfo) (p : Partition)
    (htb : lookupTable s db t = some tb)
    (hp : p ∈ partsOf s db t)
    (harity : p.values.length = tb.partitionKeys.length)
    (hpos : 0 < tb.partitionKeys.length) :
    getPartitionByName s db t (encode tb.partitionKeys p.values) =
      getPartition s db t p.values ∧
    ∃ q, getPartition s db t p.values = .ok q := by
  constructor
  · unfold getPartitionByName
    rw [htb]
    show (match decode tb.partitionKeys (encode tb.partitionKeys p.values) with
          | none => Except.error Err.MalformedIdentifier
          | some vals => getPartition s db t vals) = getPartition s db t p.values
    rw [codec_roundtrip tb.partitionKeys p.values harity.symm hpos]
  · unfold getPartition
    rw [htb]
    have hsome : ((partsOf s db t).find? (fun q => decide (q.values = p.values))).isSome := by
      rw [List.find?_isSome]
      exact ⟨p, hp, by simp⟩
    obtain ⟨q, hq⟩ := Option.isSome_iff_exists.mp hsome
    exact ⟨q, by rw [hq]⟩

/-- A sample table with the single partition-key column `ds`. -/
def sampleTable : TableInfo := ⟨[['d', 's']], []⟩

/-- A sample partition of table `d.t` with value list `[v]`. -/
def samplePart : Partition := ⟨['d'], ['t'], [['v']], [], [], []⟩

/-- A sample catalog: database `d`, table `d.t`, holding `samplePart`. -/
def sampleState : CatalogState :=
  ⟨[(['d'], [])], [((['d'], ['t']), sampleTable)], [samplePart]⟩

/-- The sample catalog with an empty partition set. -/
def sampleStateNoParts : CatalogState :=
  ⟨[(['d'], [])], [((['d'], ['t']), sampleTable)], []⟩

/-- Witness for **C2**: a one-table catalog holding one partition. -/
theorem get_partition_addressing_agree_witness :
    getPartitionByName sampleState ['d'] ['t']
        (encode sampleTable.partitionKeys samplePart.values) =
      getPartition sampleState ['d'] ['t'] samplePart.values ∧
    ∃ q, getPartition sampleState ['d'] ['t'] samplePart.values = .ok q :=
  get_partition_addressing_agree sampleState ['d'] ['t'] sampleTable samplePart
    (by decide) (by decide) (by decide) (by decide)

/-- **C3** — Adding the same value list twice: the first `addPartition` call
succeeds, the second fails with `AlreadyExists`, and the stored partition
set of the table still has no duplicate value lists afterwards. -/
theorem add_partition_twice (s : CatalogState) (tb : TableInfo) (p : Partition)
    (htb : lookupTable s p.dbName p.tableName = some tb)
    (harity : p.values.length = tb.partitionKeys.length)
    (habs : ∀ q ∈ partsOf s p.dbName p.tableName, ¬q.values = p.values)
    (hnodup : ((partsOf s p.dbName p.tableName).map (fun q => q.values)).Nodup) :
    ∃ q s2, addPartition s p = .ok (q, s2) ∧
      addPartition s2 p = .error .AlreadyExists ∧
      ((partsOf s2 p.dbName p.tableName).map (fun q => q.values)).Nodup := by
  have habs' : (partsOf s p.dbName p.tableName).any
      (fun q => decide (q.values = p.values)) = false := by
    rw [List.any_eq_false]
    intro q hq
    simp [habs q hq]
  set stored : Partition := { p with name := encode tb.partitionKeys p.values } with hstored
  set s2 : CatalogState := { s with parts := stored :: s.parts } with hs2
  have hparts2 : partsOf s2 p.dbName p.tableName = stored :: partsOf s p.dbName p.tableName :=
    partsOf_parts_cons s p.dbName p.tableName stored rfl rfl
  refine ⟨stored, s2, addPartition_ok s tb p htb harity habs', ?_, ?_⟩
  · refine addPartition_already s2 tb p htb harity ?_
    rw [hparts2, List.any_cons]
    simp [hstored]
  · rw [hparts2, List.map_cons, List.nodup_cons]
    refine ⟨?_, hnodup⟩
    intro hmem
    obtain ⟨q, hq, hqv⟩ := List.mem_map.mp hmem
    exact habs q hq (by simpa [hstored] using hqv)

/-- Witness for **C3**: a one-table catalog with no partition yet. -/
theorem add_partition_twice_witness :
    ∃ q s2,
      addPartition sampleStateNoParts samplePart = .ok (q, s2) ∧
      addPartition s2 samplePart = .error .AlreadyExists ∧
      ((partsOf s2 samplePart.dbName samplePart.tableName).map
        (fun q => q.values)).Nodup :=
  add_partition_twice sampleStateNoParts sampleTable samplePart
    (by decide) (by decide) (by decide) (by decide)

/-- **C4** — Listing limits: `maxParts = -1` returns the full partition set,
`maxParts = 0` returns the empty list, `maxParts = k > 0` returns at most
`k` entries, both for `getPartitions` and for `getPartitionNames`. -/
theorem get_partitions_limit (s : CatalogState) (db t : Str) (tb : TableInfo)
    (htb : lookupTable s db t = some tb) :
    getPartitions s db t (-1) = .ok (partsOf s db t) ∧
    getPartitions s db t 0 = .ok [] ∧
    (∀ k : Int, 0 < k →
      ∃ l, getPartitions s db t k = .ok l ∧ l.length ≤ k.toNat) ∧
    getPartitionNames s db t (-1) = .ok ((partsOf s db t).map (fun p => p.name)) ∧
    getPartitionNames s db t 0 = .ok [] ∧
    (∀ k : Int, 0 < k →
      ∃ l, getPartitionNames s db t k = .ok l ∧ l.length ≤ k.toNat) := by
  unfold getPartitions getPartitionNames
  rw [htb]
  refine ⟨?_, ?_, ?_, ?_, ?_, ?_⟩
  · rw [limitParts, if_pos (by norm_num)]
  · rw [limitParts, if_neg (by norm_num)]
    simp
  · intro k hk
    refine ⟨_, rfl, ?_⟩
    rw [limitParts, if_neg (by omega)]
    exact List.length_take_le _ _
  · rw [limitParts, if_pos (by norm_num)]
  · rw [limitParts, if_neg (by norm_num)]
    simp
  · intro k hk
    refine ⟨_, rfl, ?_⟩
    rw [limitParts, if_neg (by omega)]
    exact List.length_take_le _ _

/-- A second sample partition of table `d.t`, value list `[u]`. -/
def samplePart2 : Partition := ⟨['d'], ['t'], [['u']], [], [], []⟩

/-- The sample catalog holding two partitions. -/
def sampleState2 : CatalogState :=
  ⟨[(['d'], [])], [((['d'], ['t']), sampleTable)], [samplePart2, samplePart]⟩

/-- Witness for **C4**: a one-table catalog holding two partitions,
queried with limits -1, 0 and 1. -/
theorem get_partitions_limit_witness :
    getPartitions sampleState2 ['d'] ['t'] (-1) = .ok (partsOf sampleState2 ['d'] ['t']) ∧
    getPartitions sampleState2 ['d'] ['t'] 0 = .ok [] ∧
    (∃ l, getPartitions sampleState2 ['d'] ['t'] 1 = .ok l ∧
      l.length ≤ (1 : Int).toNat) := by
  have h := get_partitions_limit sampleState2 ['d'] ['t'] sampleTable (by decide)
  exact ⟨h.1, h.2.1, h.2.2.1 1 (by norm_num)⟩

theorem filterMap_filter_key (db t : Str) (l : List ((Str × Str) × TableInfo)) :
    (l.filter (fun e => decide (¬e.1 = (db, t)))).filterMap
        (fun e => if e.1.1 = db then some e.1.2 else none) =
      (l.filterMap (fun e => if e.1.1 = db then some e.1.2 else none)).filter
        (fun x => decide (¬x = t)) := by
  induction l with
  | nil => rfl
  | cons e l ih =>
    simp only [decide_not] at ih ⊢
    by_cases h1 : e.1.1 = db
    · by_cases h2 : e.1.2 = t
      · have he : e.1 = (db, t) := Prod.ext h1 h2
        simp [List.filter_cons, List.filterMap_cons, he, h1, h2, ih]
      · have he : ¬e.1 = (db, t) := fun hc => h2 (by rw [hc])
        simp [List.filter_cons, List.filterMap_cons, he, h1, h2, ih]
    · have he : ¬e.1 = (db, t) := fun hc => h1 (by rw [hc])
      simp [List.filter_cons, List.filterMap_cons, he, h1, ih]

theorem lookupTable_of_mem_tableNames {s : CatalogState} {db t : Str}
    (h : t ∈ tableNames s db) : ∃ tb, lookupTable s db t = some tb := by
  unfold tableNames at h
  obtain ⟨e, he, heq⟩ := List.mem_filterMap.mp h
  by_cases h1 : e.1.1 = db
  · rw [if_pos h1] at heq
    have h2 : e.1.2 = t := Option.some_injective _ heq
    have hkey : e.1 = (db, t) := Prod.ext h1 h2
    have hsome : (s.tbls.find? (fun e2 => decide (e2.1 = (db, t)))).isSome := by
      rw [List.find?_isSome]
      exact ⟨e, he, by simp [hkey]⟩
    obtain ⟨e2, he2⟩ := Option.isSome_iff_exists.mp hsome
    exact ⟨e2.2, by simp [lookupTable, he2]⟩
  · rw [if_neg h1] at heq
    exact absurd heq (by simp)

theorem dropTable_ok {s : CatalogState} {db t : Str} {tb : TableInfo}
    (htb : lookupTable s db t = some tb) :
    dropTable s db t false =
      .ok { s with
        tbls := s.tbls.filter (fun e => decide (¬e.1 = (db, t))),
        parts := s.parts.filter (fun p => decide (¬(p.dbName = db ∧ p.tableName = t))) } := by
  unfold dropTable
  rw [htb]

theorem dropTables_all (db : Str) (l : List Str) : ∀ s : CatalogState,
    tableNames s db = l → l.Nodup →
    ∃ s2, dropTables db s l = .ok s2 ∧ tableNames s2 db = [] ∧ s2.dbs = s.dbs := by
  induction l with
  | nil => exact fun s h _ => ⟨s, rfl, h, rfl⟩
  | cons t ts ih =>
    intro s h hnd
    have hmem : t ∈ tableNames s db := by rw [h]; exact List.mem_cons_self t ts
    obtain ⟨tb, htb⟩ := lookupTable_of_mem_tableNames hmem
    set s2 : CatalogState :=
      { s with
        tbls := s.tbls.filter (fun e => decide (¬e.1 = (db, t))),
        parts := s.parts.filter (fun p => decide (¬(p.dbName = db ∧ p.tableName = t))) }
      with hs2
    have hnames2 : tableNames s2 db = ts := by
      show (s.tbls.filter (fun e => decide (¬e.1 = (db, t)))).filterMap
          (fun e => if e.1.1 = db then some e.1.2 else none) = ts
      rw [filterMap_filter_key]
      have hfm : s.tbls.filterMap (fun e => if e.1.1 = db then some e.1.2 else none) = t :: ts := h
      have hts : ∀ x ∈ ts, ¬x = t := by
        intro x hx hc
        exact (List.nodup_cons.mp hnd).1 (hc ▸ hx)
      rw [hfm, List.filter_cons, if_neg (by simp)]
      exact List.filter_eq_self.mpr (fun x hx => by simpa using hts x hx)
    obtain ⟨s3, h3, h4, h5⟩ := ih s2 hnames2 (List.nodup_cons.mp hnd).2
    refine ⟨s3, ?_, h4, h5⟩
    show (match dropTable s db t false with
          | .error e => Except.error e
          | .ok sx => dropTables db sx ts) = Except.ok s3
    rw [dropTable_ok htb]
    exact h3

/-- **C5** — A database that still owns a table cannot be dropped
(`NotEmpty`); after dropping all of its tables the same call succeeds;
dropping an absent database fails with `NotFound`. -/
theorem drop_database_spec (s : CatalogState) (db : Str) (l : List Str)
    (hdb : dbExists s db = true)
    (hnames : tableNames s db = l)
    (hnd : l.Nodup) :
    (¬l = [] → dropDatabase s db = .error .NotEmpty) ∧
    (∃ s2 r, dropTables db s l = .ok s2 ∧ dropDatabase s2 db = .ok r) ∧
    (∀ (s0 : CatalogState) (d0 : Str), dbExists s0 d0 = false →
      dropDatabase s0 d0 = .error .NotFound) := by
  refine ⟨?_, ?_, ?_⟩
  · intro hne
    unfold dropDatabase
    rw [if_pos hdb, if_neg (by rw [hnames]; exact hne)]
  · obtain ⟨s2, h2, h3, h4⟩ := dropTables_all db l s hnames hnd
    have hdb2 : dbExists s2 db = true := by
      unfold dbExists
      rw [h4]
      exact hdb
    refine ⟨s2, (true, { s2 with dbs := s2.dbs.filter (fun d => decide (¬d.1 = db)) }),
      h2, ?_⟩
    unfold dropDatabase
    rw [if_pos hdb2, if_pos h3]
  · intro s0 d0 h0
    unfold dropDatabase
    rw [if_neg (by simp [h0])]

/-- Witness for **C5**: the sample catalog, whose database `d` owns the
single table `t`. -/
theorem drop_database_spec_witness :
    (¬[['t']] = ([] : List Str) →
      dropDatabase sampleState ['d'] = .error .NotEmpty) ∧
    (∃ s2 r, dropTables ['d'] sampleState [['t']] = .ok s2 ∧
      dropDatabase s2 ['d'] = .ok r) ∧
    (∀ (s0 : CatalogState) (d0 : Str), dbExists s0 d0 = false →
      dropDatabase s0 d0 = .error .NotFound) :=
  drop_database_spec sampleState ['d'] [['t']] (by decide) (by decide) (by decide)

theorem reach_of_mem {R : List HType} {goal : Str} {frontier : List Str}
    (fuel : Nat) (h : goal ∈ frontier) : reach R goal (fuel + 1) frontier = true := by
  unfold reach
  rw [List.any_eq_true]
  exact ⟨goal, h, by simp⟩

/-- **C6** — `createType` fails with `UnknownReference` when the new type
references an undefined type; it fails with `CyclicDependency` when adding
the type would create a cycle in the reference graph (a self-referential
type being the concretely creatable cycle); and in the two-type scenario —
`A` referencing `B`, `B` referencing `A` — the second creation fails, in
either creation order. -/
theorem create_type_errors :
    (∀ (R : List HType) (t : HType) (r : Str),
      typeDefined R t.name = false → r ∈ t.refs → ¬r = t.name →
      typeDefined R r = false →
      createType R t = .error .UnknownReference) ∧
    (∀ (R : List HType) (t : HType),
      typeDefined R t.name = false →
      (t.refs.all (fun r => decide (r = t.name) || typeDefined R r)) = true →
      t.name ∈ t.refs →
      createType R t = .error .CyclicDependency) ∧
    (∀ A B : Str, ¬A = B →
      (∃ e, createType (afterCreate [] ⟨A, [B]⟩) ⟨B, [A]⟩ = .error e) ∧
      (∃ e, createType (afterCreate [] ⟨B, [A]⟩) ⟨A, [B]⟩ = .error e)) := by
  have hunk : ∀ (R : List HType) (t : HType) (r : Str),
      typeDefined R t.name = false → r ∈ t.refs → ¬r = t.name →
      typeDefined R r = false →
      createType R t = .error .UnknownReference := by
    intro R t r hfree hr hrn hrdef
    unfold createType
    rw [if_neg (by simp [hfree])]
    rw [if_neg ?hall]
    case hall =>
      intro hall
      have := List.all_eq_true.mp hall r hr
      simp [hrn, hrdef] at this
  refine ⟨hunk, ?_, ?_⟩
  · intro R t hfree hall hself
    unfold createType
    rw [if_neg (by simp [hfree]), if_pos hall,
      if_pos (show reach R t.name (R.length + 1) t.refs = true from
        reach_of_mem R.length hself)]
  · intro A B hAB
    have h1 : createType [] (⟨A, [B]⟩ : HType) = .error .UnknownReference :=
      hunk [] ⟨A, [B]⟩ B (by simp [typeDefined]) (by simp)
        (fun hc => hAB hc.symm) (by simp [typeDefined])
    have h2 : createType [] (⟨B, [A]⟩ : HType) = .error .UnknownReference :=
      hunk [] ⟨B, [A]⟩ A (by simp [typeDefined]) (by simp)
        hAB (by simp [typeDefined])
    constructor
    · refine ⟨.UnknownReference, ?_⟩
      have : afterCreate [] (⟨A, [B]⟩ : HType) = [] := by
        unfold afterCreate
        rw [h1]
      rw [this]
      exact h2
    · refine ⟨.UnknownReference, ?_⟩
      have : afterCreate [] (⟨B, [A]⟩ : HType) = [] := by
        unfold afterCreate
        rw [h2]
      rw [this]
      exact h1

/-- Witness for **C6**: a type referencing the undefined type `B` is
rejected with `UnknownReference`; a self-referencing type is rejected with
`CyclicDependency`; with `A` referencing `B` and `B` referencing `A`, the
second creation fails. -/
theorem create_type_errors_witness :
    createType [] ⟨['A'], [['B']]⟩ = .error .UnknownReference ∧
    createType [] ⟨['A'], [['A']]⟩ = .error .CyclicDependency ∧
    (∃ e, createType (afterCreate [] ⟨['A'], [['B']]⟩) ⟨['B'], [['A']]⟩ = .error e) :=
  ⟨create_type_errors.1 [] ⟨['A'], [['B']]⟩ ['B']
      (by decide) (by decide) (by decide) (by decide),
    create_type_errors.2.1 [] ⟨['A'], [['A']]⟩ (by decide) (by decide) (by decide),
    (create_type_errors.2.2 ['A'] ['B'] (by decide)).1⟩

theorem addCount_present (p : Partition) (tb : TableInfo) (m : Nat) :
    ∀ s : CatalogState,
    lookupTable s p.dbName p.tableName = some tb →
    p.values.length = tb.partitionKeys.length →
    (partsOf s p.dbName p.tableName).any (fun q => decide (q.values = p.values)) = true →
    addCount p s m = (0, m, s) := by
  induction m with
  | zero => intro s _ _ _; rfl
  | succ m ih =>
    intro s h1 h2 h3
    have hAE : addPartition s p = .error .AlreadyExists :=
      addPartition_already s tb p h1 h2 h3
    show (match addPartition s p with
          | .ok (_, s2) =>
            let r := addCount p s2 m
            (r.1 + 1, r.2.1, r.2.2)
          | .error .AlreadyExists =>
            let r := addCount p s m
            (r.1, r.2.1 + 1, r.2.2)
          | .error _ =>
            let r := addCount p s m
            (r.1, r.2.1, r.2.2)) = (0, m + 1, s)
    rw [hAE, ih s h1 h2 h3]

/-- **C7** — `n ≥ 2` identical `addPartition` calls on the same table and
value list, executed in their (spec §5: linearizable, per-call atomic)
serialization order, yield exactly one success and `n - 1` `AlreadyExists`
failures, and the final state is exactly the state produced by the one
successful insert — no partial insert. -/
theorem add_partition_concurrent (s : CatalogState) (tb : TableInfo)
    (p : Partition) (n : Nat)
    (hn : 2 ≤ n)
    (htb : lookupTable s p.dbName p.tableName = some tb)
    (harity : p.values.length = tb.partitionKeys.length)
    (habs : (partsOf s p.dbName p.tableName).any
      (fun q => decide (q.values = p.values)) = false) :
    ∃ q s2, addPartition s p = .ok (q, s2) ∧ addCount p s n = (1, n - 1, s2) := by
  obtain ⟨m, rfl⟩ : ∃ m, n = m + 1 := ⟨n - 1, by omega⟩
  set stored : Partition := { p with name := encode tb.partitionKeys p.values } with hstored
  set s2 : CatalogState := { s with parts := stored :: s.parts } with hs2
  have hok : addPartition s p = .ok (stored, s2) := addPartition_ok s tb p htb harity habs
  refine ⟨stored, s2, hok, ?_⟩
  have hparts2 : partsOf s2 p.dbName p.tableName = stored :: partsOf s p.dbName p.tableName :=
    partsOf_parts_cons s p.dbName p.tableName stored rfl rfl
  have hpresent2 : (partsOf s2 p.dbName p.tableName).any
      (fun q => decide (q.values = p.values)) = true := by
    rw [hparts2, List.any_cons]
    simp [hstored]
  show (match addPartition s p with
        | .ok (_, sx) =>
          let r := addCount p sx m
          (r.1 + 1, r.2.1, r.2.2)
        | .error .AlreadyExists =>
          let r := addCount p s m
          (r.1, r.2.1 + 1, r.2.2)
        | .error _ =>
          let r := addCount p s m
          (r.1, r.2.1, r.2.2)) = (1, m + 1 - 1, s2)
  rw [hok]
  show (let r := addCount p s2 m
        (r.1 + 1, r.2.1, r.2.2)) = (1, m + 1 - 1, s2)
  rw [addCount_present p tb m s2 htb harity hpresent2]
  rfl

/-- Witness for **C7**: three identical `addPartition` calls on the sample
catalog: one success, two `AlreadyExists` failures. -/
theorem add_partition_concurrent_witness :
    ∃ q s2, addPartition sampleStateNoParts samplePart = .ok (q, s2) ∧
      addCount samplePart sampleStateNoParts 3 = (1, 3 - 1, s2) :=
  add_partition_concurrent sampleStateNoParts sampleTable samplePart 3
    (by decide) (by decide) (by decide) (by decide)

/-! ## The generated server skeleton
(`src/metastore/src/gen-cpp/ThriftHiveMetastore_server.skeleton.cpp`)

This is the one source file of the repository.  Every handler body is a stub:
it prints the operation name via `printf` and returns.  Handlers taking a
`_return` out-parameter never assign to it; handlers declared `bool` reach the
end of the body without executing a `return` statement.  The embedding makes
both observable: each handler returns the list of lines it printed, the
handler object's (empty) member state, and either the `_return` value it
leaves behind or an `Option Bool` that is `none` when no `return` statement
ran. -/

namespace Skeleton

/-- The member state of `ThriftHiveMetastoreHandler`: the class declares no
data members, so the state carries nothing. -/
structure HandlerState where
  deriving DecidableEq, Repr

/-- Thrift `Database` struct (declared in the generated header). -/
structure Database where
  name : String := ""
  description : String := ""
  deriving DecidableEq, Repr

/-- Thrift `Type` struct; named `TType` because `Type` is a Lean keyword. -/
structure TType where
  name : String := ""
  type1 : String := ""
  type2 : String := ""
  deriving DecidableEq, Repr

/-- Thrift `FieldSchema` struct. -/
structure FieldSchema where
  name : String := ""
  ftype : String := ""
  comment : String := ""
  deriving DecidableEq, Repr

/-- Thrift `Table` struct. -/
structure Table where
  tableName : String := ""
  dbName : String := ""
  deriving DecidableEq, Repr

/-- Thrift `Partition` struct. -/
structure Partition where
  values : List String := []
  dbName : String := ""
  tableName : String := ""
  deriving DecidableEq, Repr

def create_database (st : HandlerState) (name description : String) :
    List String × HandlerState × Option Bool :=
  (["create_database"], st, none)

def get_database (st : HandlerState) (ret : Database) (name : String) :
    List String × HandlerState × Database :=
  (["get_database"], st, ret)

def drop_database (st : HandlerState) (name : String) :
    List String × HandlerState × Option Bool :=
  (["drop_database"], st, none)

def get_databases (st : HandlerState) (ret : List String) :
    List String × HandlerState × List String :=
  (["get_databases"], st, ret)

def get_type (st : HandlerState) (ret : TType) (name : String) :
    List String × HandlerState × TType :=
  (["get_type"], st, ret)

def create_type (st : HandlerState) (type : TType) :
    List String × HandlerState × Option Bool :=
  (["create_type"], st, none)

def drop_type (st : HandlerState) (type : String) :
    List String × HandlerState × Option Bool :=
  (["drop_type"], st, none)

def get_type_all (st : HandlerState) (ret : List (String × TType)) (name : String) :
    List String × HandlerState × List (String × TType) :=
  (["get_type_all"], st, ret)

def get_fields (st : HandlerState) (ret : List FieldSchema) (db_name table_name : String) :
    List String × HandlerState × List FieldSchema :=
  (["get_fields"], st, ret)

def get_schema (st : HandlerState) (ret : List FieldSchema) (db_name table_name : String) :
    List String × HandlerState × List FieldSchema :=
  (["get_schema"], st, ret)

def create_table (st : HandlerState) (tbl : Table) :
    List String × HandlerState × Unit :=
  (["create_table"], st, ())

def drop_table (st : HandlerState) (dbname name : String) (deleteData : Bool) :
    List String × HandlerState × Unit :=
  (["drop_table"], st, ())

def get_tables (st : HandlerState) (ret : List String) (db_name pattern : String) :
    List String × HandlerState × List String :=
  (["get_tables"], st, ret)

def get_table (st : HandlerState) (ret : Table) (dbname tbl_name : String) :
    List String × HandlerState × Table :=
  (["get_table"], st, ret)

def alter_table (st : HandlerState) (dbname tbl_name : String) (new_tbl : Table) :
    List String × HandlerState × Unit :=
  (["alter_table"], st, ())

def add_partition (st : HandlerState) (ret : Partition) (new_part : Partition) :
    List String × HandlerState × Partition :=
  (["add_partition"], st, ret)

def append_partition (st : HandlerState) (ret : Partition)
    (db_name tbl_name : String) (part_vals : List String) :
    List String × HandlerState × Partition :=
  (["append_partition"], st, ret)

def append_partition_by_name (st : HandlerState) (ret : Partition)
    (db_name tbl_name part_name : String) :
    List String × HandlerState × Partition :=
  (["append_partition_by_name"], st, ret)

def drop_partition (st : HandlerState) (db_name tbl_name : String)
    (part_vals : List String) (deleteData : Bool) :
    List String × HandlerState × Option Bool :=
  (["drop_partition"], st, none)

def drop_partition_by_name (st : HandlerState) (db_name tbl_name part_name : String)
    (deleteData : Bool) :
    List String × HandlerState × Option Bool :=
  (["drop_partition_by_name"], st, none)

def get_partition (st : HandlerState) (ret : Partition) (db_name tbl_name : String)
    (part_vals : List String) :
    List String × HandlerState × Partition :=
  (["get_partition"], st, ret)

def get_partition_by_name (st : HandlerState) (ret : Partition)
    (db_name tbl_name part_name : String) :
    List String × HandlerState × Partition :=
  (["get_partition_by_name"], st, ret)

def get_partitions (st : HandlerState) (ret : List Partition)
    (db_name tbl_name : String) (max_parts : Int) :
    List String × HandlerState × List Partition :=
  (["get_partitions"], st, ret)

def get_partition_names (st : HandlerState) (ret : List String)
    (db_name tbl_name : String) (max_parts : Int) :
    List String × HandlerState × List String :=
  (["get_partition_names"], st, ret)

def get_partitions_ps (st : HandlerState) (ret : List Partition)
    (db_name tbl_name : String) (part_vals : List String) (max_parts : Int) :
    List String × HandlerState × List Partition :=
  (["get_partitions_ps"], st, ret)

def get_partition_names_ps (st : HandlerState) (ret : List String)
    (db_name tbl_name : String) (part_vals : List String) (max_parts : Int) :
    List String × HandlerState × List String :=
  (["get_partition_names_ps"], st, ret)

def alter_partition (st : HandlerState) (db_name tbl_name : String) (new_part : Partition) :
    List String × HandlerState × Unit :=
  (["alter_partition"], st, ())

def get_config_value (st : HandlerState) (ret : String) (name defaultValue : String) :
    List String × HandlerState × String :=
  (["get_config_value"], st, ret)

/-- The kind of thrift server `main` constructs. -/
inductive ServerKind where
  | simpleServer
  deriving DecidableEq, Repr

/-- The protocol factory `main` installs. -/
inductive ProtocolKind where
  | binaryProtocol
  deriving DecidableEq, Repr

/-- The transport factory `main` installs. -/
inductive TransportKind where
  | bufferedTransport
  deriving DecidableEq, Repr

/-- The server configuration assembled by `main` before `serve()`. -/
structure ServerConfig where
  port : Int
  kind : ServerKind
  protocol : ProtocolKind
  transport : TransportKind
  deriving DecidableEq, Repr

/-- `main`: sets `port = 9090` and builds a `TSimpleServer` over a
`TServerSocket(port)`, a `TBufferedTransportFactory` and a
`TBinaryProtocolFactory`; `argc`/`argv` are never read. -/
def mainConfig (argc : Nat) (argv : List String) : ServerConfig :=
  let port : Int := 9090
  { port := port
    kind := .simpleServer
    protocol := .binaryProtocol
    transport := .bufferedTransport }

end Skeleton

/-- **C8** — Every query handler of the skeleton returns with its `_return`
out-parameter exactly as the caller supplied it, and leaves the (empty)
handler member state unchanged: the stub bodies only `printf` and touch no
catalog state. -/
theorem skeleton_query_handlers_frame :
    ∀ (st : Skeleton.HandlerState) (n n2 pat cfgdef : String)
      (rdb : Skeleton.Database) (rss : List String) (rt : Skeleton.TType)
      (rta : List (String × Skeleton.TType)) (rfs : List Skeleton.FieldSchema)
      (rtb : Skeleton.Table) (rp : Skeleton.Partition)
      (rps : List Skeleton.Partition) (vals : List String) (mx : Int)
      (rs : String),
    (Skeleton.get_database st rdb n).2 = (st, rdb) ∧
    (Skeleton.get_databases st rss).2 = (st, rss) ∧
    (Skeleton.get_type st rt n).2 = (st, rt) ∧
    (Skeleton.get_type_all st rta n).2 = (st, rta) ∧
    (Skeleton.get_fields st rfs n n2).2 = (st, rfs) ∧
    (Skeleton.get_schema st rfs n n2).2 = (st, rfs) ∧
    (Skeleton.get_tables st rss n pat).2 = (st, rss) ∧
    (Skeleton.get_table st rtb n n2).2 = (st, rtb) ∧
    (Skeleton.get_partition st rp n n2 vals).2 = (st, rp) ∧
    (Skeleton.get_partition_by_name st rp n n2 pat).2 = (st, rp) ∧
    (Skeleton.get_partitions st rps n n2 mx).2 = (st, rps) ∧
    (Skeleton.get_partition_names st rss n n2 mx).2 = (st, rss) ∧
    (Skeleton.get_partitions_ps st rps n n2 vals mx).2 = (st, rps) ∧
    (Skeleton.get_partition_names_ps st rss n n2 vals mx).2 = (st, rss) ∧
    (Skeleton.get_config_value st rs n cfgdef).2 = (st, rs) := by
  intro st n n2 pat cfgdef rdb rss rt rta rfs rtb rp rps vals mx rs
  exact ⟨rfl, rfl, rfl, rfl, rfl, rfl, rfl, rfl, rfl, rfl, rfl, rfl, rfl, rfl, rfl⟩

/-- **C9** — Every skeleton handler declared `bool` in the source
(`create_database`, `drop_database`, `create_type`, `drop_type`,
`drop_partition`, `drop_partition_by_name`) falls off the end of its body
without executing a `return` statement, so no call produces a defined
boolean result. -/
theorem skeleton_bool_handlers_no_result :
    ∀ (st : Skeleton.HandlerState) (a b c : String)
      (t : Skeleton.TType) (vals : List String) (del : Bool),
    (Skeleton.create_database st a b).2.2 = none ∧
    (Skeleton.drop_database st a).2.2 = none ∧
    (Skeleton.create_type st t).2.2 = none ∧
    (Skeleton.drop_type st a).2.2 = none ∧
    (Skeleton.drop_partition st a b vals del).2.2 = none ∧
    (Skeleton.drop_partition_by_name st a b c del).2.2 = none := by
  intro st a b c t vals del
  exact ⟨rfl, rfl, rfl, rfl, rfl, rfl⟩

/-- **C10** — `main` ignores its command-line arguments and always builds
the same configuration: port 9090, `TSimpleServer`, binary protocol,
buffered transport. -/
theorem skeleton_main_config :
    ∀ (argc : Nat) (argv : List String) (argc2 : Nat) (argv2 : List String),
    Skeleton.mainConfig argc argv = Skeleton.mainConfig argc2 argv2 ∧
    Skeleton.mainConfig argc argv =
      { port := 9090
        kind := .simpleServer
        protocol := .binaryProtocol
        transport := .bufferedTransport } := by
  intro argc argv argc2 argv2
  exact ⟨rfl, rfl⟩

end HiveMeta
